import Mathlib

/-!
Verification of the cache-aside response cache of the `cascon2019` greeting
application: the `CachingService` key/value store with TTL expiration and
sweeping, and the `CachingInterceptor` that wraps request handling
(`greeting-app/src/greeter-fr.ts`, interceptor section, and the tutorial
README). JavaScript runtime values are embedded as `JSValue`; time is a
`Nat` of milliseconds passed explicitly where the source reads the clock.
-/

/-- A JavaScript runtime value as stored in the cache or produced by a
handler. Numbers are modelled as integers; objects as flat string field
lists, the shape of the actual greeting payloads
(`\x7btimestamp, language, greeting\x7d`) — the cache treats them opaquely. -/
inductive JSValue where
  | vUndefined : JSValue
  | vNull : JSValue
  | vBool : Bool → JSValue
  | vNum : Int → JSValue
  | vStr : String → JSValue
  | vObj : List (String × String) → JSValue
deriving Repr, DecidableEq

/-- JavaScript truthiness: `undefined`, `null`, `false`, `0` and the empty
string are falsy; every object is truthy. -/
def JSValue.truthy : JSValue → Bool
  | .vUndefined => false
  | .vNull => false
  | .vBool b => b
  | .vNum n => n != 0
  | .vStr s => s != ""
  | .vObj _ => true

/-- Modelled from the spec: a cache entry of the CacheStore
(`caching.service.ts` is referenced by the tutorial but its body is not in
this repository). `expiresAt = createdAt + TTL`. -/
structure CacheEntry where
  value : JSValue
  createdAt : Nat
  expiresAt : Nat
deriving Repr, DecidableEq

/-- Modelled from the spec: the CachingService state — a mapping from string
key to `CacheEntry` with a fixed per-store TTL (reference default
10000 ms). The mapping is an association list with at most one entry per
key. -/
structure CachingService where
  ttl : Nat
  entries : List (String × CacheEntry)
deriving Repr, DecidableEq

/-- Raw association-list lookup of the entry stored under `key` (no
expiration logic). -/
def CachingService.lookup (s : CachingService) (key : String) :
    Option CacheEntry :=
  (s.entries.find? (fun p => p.1 == key)).map Prod.snd

/-- Modelled from the spec: `set(key, value)` inserts or replaces the entry
for `key` with `createdAt = now`, `expiresAt = now + TTL`. -/
def CachingService.set (s : CachingService) (key : String) (v : JSValue)
    (now : Nat) : CachingService :=
  { s with entries :=
      (key, ⟨v, now, now + s.ttl⟩) :: s.entries.filter (fun p => p.1 != key) }

/-- Modelled from the spec: `get(key)` returns the stored value, or miss
(`none`) when the key is absent or `now >= expiresAt`; a stale entry is
removed as a side effect (lazy cleanup). Returns the value together with
the possibly cleaned-up store. -/
def CachingService.get (s : CachingService) (key : String) (now : Nat) :
    Option JSValue × CachingService :=
  match s.lookup key with
  | none => (none, s)
  | some e =>
    if e.expiresAt ≤ now then
      (none, { s with entries := s.entries.filter (fun p => p.1 != key) })
    else
      (some e.value, s)

/-- Modelled from the spec: `sweepOnce()` removes every entry with
`now >= expiresAt` and returns the list of removed keys. -/
def CachingService.sweepOnce (s : CachingService) (now : Nat) :
    List String × CachingService :=
  ((s.entries.filter (fun p => p.2.expiresAt ≤ now)).map Prod.fst,
   { s with entries := s.entries.filter (fun p => !(p.2.expiresAt ≤ now)) })

/-- The store invariant: at most one entry per key. -/
def CachingService.wf (s : CachingService) : Prop :=
  (s.entries.map Prod.fst).Nodup

/-- The inbound HTTP request as the interceptor sees it: the request path
and the raw `accept-language` header (`none` when the header is absent). -/
structure HttpRequest where
  path : String
  acceptLanguage : Option String
deriving Repr, DecidableEq

/-- The invocation context: the optional HTTP request binding
(`invocationCtx.get(RestBindings.Http.REQUEST, \x7boptional: true\x7d)`
yields `none` for non-REST invocations). -/
structure Invocation where
  httpReq : Option HttpRequest
deriving Repr, DecidableEq

/-- The fixed exclusion list from the interceptor:
`const EXCLUDED_PATHS = ['/explorer/', '/explorer/openapi.json']`. -/
def EXCLUDED_PATHS : List String := ["/explorer/", "/explorer/openapi.json"]

/-- The language tag: `httpReq.headers['accept-language'] || 'en'` — the raw
header value, falling back to `"en"` exactly when the header is absent or
empty (falsy). -/
def langOf (req : HttpRequest) : String :=
  match req.acceptLanguage with
  | none => "en"
  | some s => if s == "" then "en" else s

/-- The derived cache key: `const cachingKey = lang + ":" + key` where
`key = httpReq.path`. -/
def cachingKey (req : HttpRequest) : String :=
  langOf req ++ ":" ++ req.path

deriving instance DecidableEq for Except

/-- The outcome of one `intercept` call: the returned or thrown value, the
final store, and whether `next`, `cachingService.get` and
`cachingService.set` were invoked. -/
structure InterceptResult where
  result : Except JSValue JSValue
  store : CachingService
  nextInvoked : Bool
  cacheRead : Bool
  cacheWritten : Bool
deriving Repr, DecidableEq

/-- Truthiness of the value returned by `cachingService.get`: in the source
a miss yields `undefined`, so `if (cachedResult)` is false on a miss and
otherwise tests the stored value itself. -/
def optTruthy : Option JSValue → Bool
  | some v => v.truthy
  | none => false

/-- The `intercept` method of `CachingInterceptor`
(`greeting-app/src/greeter-fr.ts`): pass straight through when no HTTP
request is bound or the path is excluded; otherwise look up `cachingKey`
and return the cached value when it is truthy, else invoke `next`, store a
successful result under `cachingKey`, and return it (a thrown error
propagates before the `set` is reached). The downstream handler is
modelled by its outcome `next`; `now` is the clock at this call. -/
def intercept (store : CachingService) (inv : Invocation)
    (next : Except JSValue JSValue) (now : Nat) : InterceptResult :=
  match inv.httpReq with
  | none =>
      { result := next, store := store, nextInvoked := true,
        cacheRead := false, cacheWritten := false }
  | some req =>
      if req.path ∈ EXCLUDED_PATHS then
        { result := next, store := store, nextInvoked := true,
          cacheRead := false, cacheWritten := false }
      else
        let looked := store.get (cachingKey req) now
        let cachedResult := looked.1
        let store1 := looked.2
        if optTruthy cachedResult then
          { result := Except.ok (cachedResult.getD JSValue.vUndefined),
            store := store1, nextInvoked := false,
            cacheRead := true, cacheWritten := false }
        else
          match next with
          | Except.error err =>
              { result := Except.error err, store := store1,
                nextInvoked := true, cacheRead := true,
                cacheWritten := false }
          | Except.ok r =>
              { result := Except.ok r,
                store := store1.set (cachingKey req) r now,
                nextInvoked := true, cacheRead := true,
                cacheWritten := true }

/-! Helper lemmas about the association-list store. -/

/-- Keys absent from the key list are not found. -/
theorem find_key_of_not_mem (l : List (String × CacheEntry)) (k : String)
    (h : k ∉ l.map Prod.fst) :
    l.find? (fun p => p.1 == k) = none := by
  rw [List.find?_eq_none]
  intro p hp
  simp only [beq_iff_eq]
  intro hpk
  exact h (hpk ▸ List.mem_map_of_mem Prod.fst hp)

/-- After filtering away key `k`, a lookup of `k` finds nothing. -/
theorem find_key_filter_out (l : List (String × CacheEntry)) (k : String)
    (q : String × CacheEntry → Bool) :
    ((l.filter fun p => q p && (p.1 != k)).find? fun p => p.1 == k) = none := by
  rw [List.find?_eq_none]
  intro p hp
  have h2 := (List.mem_filter.mp hp).2
  simp only [Bool.and_eq_true, bne_iff_ne] at h2
  simpa using h2.2

/-- Filtering away a different key does not change a lookup. -/
theorem find_key_filter_ne (l : List (String × CacheEntry)) (k k2 : String)
    (h : k2 ≠ k) :
    ((l.filter fun p => p.1 != k).find? fun p => p.1 == k2) =
      l.find? (fun p => p.1 == k2) := by
  induction l with
  | nil => rfl
  | cons a t ih =>
    by_cases ha : a.1 = k
    · have hk2 : (k == k2) = false := by simp [Ne.symm h]
      simp [List.filter_cons, ha, List.find?_cons, hk2, ih]
    · by_cases ha2 : a.1 = k2
      · simp [List.filter_cons, ha, List.find?_cons, ha2, h]
      · simp [List.filter_cons, ha, List.find?_cons, ha2, ih]

/-- Lookup after `set` at the written key returns the fresh entry. -/
theorem lookup_set_self (s : CachingService) (k : String) (v : JSValue)
    (now : Nat) :
    (s.set k v now).lookup k = some ⟨v, now, now + s.ttl⟩ := by
  simp [CachingService.set, CachingService.lookup, List.find?_cons]

/-- Lookup after `set` at any other key is unchanged. -/
theorem lookup_set_ne (s : CachingService) (k : String) (v : JSValue)
    (now : Nat) (k2 : String) (h : k2 ≠ k) :
    (s.set k v now).lookup k2 = s.lookup k2 := by
  have hk : ¬(k == k2) = true := by simp [Ne.symm h]
  simp only [CachingService.set, CachingService.lookup, List.find?_cons, hk,
    cond_false]
  rw [find_key_filter_ne _ _ _ h]

/-- An absent key makes `get` a miss that leaves the store unchanged. -/
theorem get_absent (s : CachingService) (k : String) (now : Nat)
    (hl : s.lookup k = none) :
    s.get k now = (none, s) := by
  simp [CachingService.get, hl]

/-- A live entry makes `get` return its value and leave the store
unchanged. -/
theorem get_live (s : CachingService) (k : String) (now : Nat)
    (e : CacheEntry) (hl : s.lookup k = some e) (h : now < e.expiresAt) :
    s.get k now = (some e.value, s) := by
  simp [CachingService.get, hl, Nat.not_le.mpr h]

/-- A stale entry makes `get` a miss that removes the entry. -/
theorem get_stale (s : CachingService) (k : String) (now : Nat)
    (e : CacheEntry) (hl : s.lookup k = some e) (h : e.expiresAt ≤ now) :
    s.get k now =
      (none, { s with entries := s.entries.filter fun p => p.1 != k }) := by
  simp [CachingService.get, hl, h]

/-- The lazily cleaned-up store no longer holds the stale key. -/
theorem lookup_filter_out_self (s : CachingService) (k : String) :
    CachingService.lookup
      { s with entries := s.entries.filter fun p => p.1 != k } k = none := by
  simp only [CachingService.lookup]
  have : (s.entries.filter fun p => p.1 != k) =
      s.entries.filter fun p => true && (p.1 != k) := by simp
  rw [this, find_key_filter_out]
  rfl

/-- The lazy cleanup of key `k` leaves every other key unchanged. -/
theorem lookup_filter_out_ne (s : CachingService) (k k2 : String)
    (h : k2 ≠ k) :
    CachingService.lookup
      { s with entries := s.entries.filter fun p => p.1 != k } k2 =
      s.lookup k2 := by
  simp only [CachingService.lookup]
  rw [find_key_filter_ne _ _ _ h]

/-- `set` does not change the TTL. -/
theorem ttl_set (s : CachingService) (k : String) (v : JSValue) (now : Nat) :
    (s.set k v now).ttl = s.ttl := rfl

/-- `get` does not change the TTL. -/
theorem ttl_get (s : CachingService) (k : String) (now : Nat) :
    (s.get k now).2.ttl = s.ttl := by
  unfold CachingService.get
  cases hl : s.lookup k with
  | none => rfl
  | some e =>
    by_cases h : e.expiresAt ≤ now <;> simp [h]

/-! Branch lemmas for `intercept`. -/

/-- A live truthy entry makes `intercept` return it without invoking
`next`. -/
theorem intercept_hit (store : CachingService) (req : HttpRequest)
    (next : Except JSValue JSValue) (now : Nat) (e : CacheEntry)
    (hex : req.path ∉ EXCLUDED_PATHS)
    (hl : store.lookup (cachingKey req) = some e)
    (hlive : now < e.expiresAt) (ht : e.value.truthy = true) :
    intercept store ⟨some req⟩ next now =
      { result := Except.ok e.value, store := store, nextInvoked := false,
        cacheRead := true, cacheWritten := false } := by
  have hget := get_live store (cachingKey req) now e hl hlive
  simp [intercept, hex, hget, optTruthy, ht]

/-- When the looked-up value is not truthy, a successful `next` is stored
and returned. -/
theorem intercept_miss_ok (store : CachingService) (req : HttpRequest)
    (r : JSValue) (now : Nat)
    (hex : req.path ∉ EXCLUDED_PATHS)
    (hmiss : optTruthy (store.get (cachingKey req) now).1 = false) :
    intercept store ⟨some req⟩ (Except.ok r) now =
      { result := Except.ok r,
        store := ((store.get (cachingKey req) now).2).set (cachingKey req)
          r now,
        nextInvoked := true, cacheRead := true, cacheWritten := true } := by
  simp [intercept, hex, hmiss]

/-- When the looked-up value is not truthy, a failing `next` propagates and
nothing is stored. -/
theorem intercept_miss_error (store : CachingService) (req : HttpRequest)
    (err : JSValue) (now : Nat)
    (hex : req.path ∉ EXCLUDED_PATHS)
    (hmiss : optTruthy (store.get (cachingKey req) now).1 = false) :
    intercept store ⟨some req⟩ (Except.error err) now =
      { result := Except.error err,
        store := (store.get (cachingKey req) now).2,
        nextInvoked := true, cacheRead := true, cacheWritten := false } := by
  simp [intercept, hex, hmiss]

/-- The lookup yields no truthy value exactly when every entry under the
key is expired or falsy. -/
theorem optTruthy_get_false (store : CachingService) (k : String) (now : Nat)
    (h : ∀ e, store.lookup k = some e →
      e.expiresAt ≤ now ∨ e.value.truthy = false) :
    optTruthy (store.get k now).1 = false := by
  unfold CachingService.get
  cases hl : store.lookup k with
  | none => rfl
  | some e =>
    rcases h e hl with hst | hf
    · simp [hst, optTruthy]
    · by_cases hs : e.expiresAt ≤ now <;> simp [hs, optTruthy, hf]

/-! Claim theorems for the CacheStore operations (modelled from the spec;
the body of `caching.service.ts` is not part of this repository). -/

/-- C2: for every key `k`, a `get(k)` at a time at which the TTL has elapsed
since the last `set(k, _)` returns miss even if the Sweeper has not run,
removes the stale entry as a side effect, and in general a read never
returns a non-live entry. -/
theorem get_after_ttl_is_miss (s : CachingService) (k : String) (v : JSValue)
    (t now : Nat) (h : t + s.ttl ≤ now) :
    ((s.set k v t).get k now).1 = none ∧
    ((s.set k v t).get k now).2.lookup k = none ∧
    (∀ (s2 : CachingService) (k2 : String) (w : JSValue),
      (s2.get k2 now).1 = some w →
      ∃ e, s2.lookup k2 = some e ∧ now < e.expiresAt ∧ e.value = w) := by
  have hl := lookup_set_self s k v t
  have hg := get_stale (s.set k v t) k now ⟨v, t, t + s.ttl⟩ hl (by simpa using h)
  refine ⟨by rw [hg], ?_, ?_⟩
  · rw [hg]
    exact lookup_filter_out_self _ k
  · intro s2 k2 w hw
    unfold CachingService.get at hw
    cases hl2 : s2.lookup k2 with
    | none => rw [hl2] at hw; cases hw
    | some e =>
      rw [hl2] at hw
      by_cases hs : e.expiresAt ≤ now
      · simp [hs] at hw
      · simp [hs] at hw
        exact ⟨e, rfl, Nat.not_le.mp hs, hw⟩

/-- C2 witness at concrete inputs. -/
theorem get_after_ttl_is_miss_witness :
    (10 : Nat) + (⟨10, []⟩ : CachingService).ttl ≤ 20 ∧
    (((⟨10, []⟩ : CachingService).set "k" (JSValue.vStr "x") 10).get "k"
      20).1 = none :=
  ⟨by decide,
   (get_after_ttl_is_miss ⟨10, []⟩ "k" (JSValue.vStr "x") 10 20
     (by decide)).1⟩

/-- C7: `set(k, v)` followed by `get(k)` before the TTL elapses returns
exactly `v`; `get` is total over any string key, its only non-value
outcome being miss. -/
theorem set_then_get_returns (s : CachingService) (k : String) (v : JSValue)
    (t now : Nat) (h : now < t + s.ttl) :
    ((s.set k v t).get k now).1 = some v ∧
    (∀ (s2 : CachingService) (k2 : String),
      (s2.get k2 now).1 = none ∨ ∃ w, (s2.get k2 now).1 = some w) := by
  constructor
  · have hl := lookup_set_self s k v t
    have hg := get_live (s.set k v t) k now ⟨v, t, t + s.ttl⟩ hl
      (by simpa using h)
    rw [hg]
  · intro s2 k2
    cases hr : (s2.get k2 now).1 with
    | none => exact Or.inl rfl
    | some w => exact Or.inr ⟨w, rfl⟩

/-- C7 witness at concrete inputs. -/
theorem set_then_get_returns_witness :
    (3 : Nat) < 0 + (⟨10, []⟩ : CachingService).ttl ∧
    (((⟨10, []⟩ : CachingService).set "k" (JSValue.vStr "x") 0).get "k"
      3).1 = some (JSValue.vStr "x") :=
  ⟨by decide,
   (set_then_get_returns ⟨10, []⟩ "k" (JSValue.vStr "x") 0 3 (by decide)).1⟩

/-! Lemmas for `sweepOnce`. -/

/-- First components of a filtered list are first components of the
original list. -/
theorem mem_map_fst_of_mem_map_fst_filter (q : String × CacheEntry → Bool)
    (l : List (String × CacheEntry)) (k : String)
    (h : k ∈ (l.filter q).map Prod.fst) : k ∈ l.map Prod.fst := by
  obtain ⟨p, hp, hpk⟩ := List.mem_map.mp h
  exact hpk ▸ List.mem_map_of_mem Prod.fst (List.mem_of_mem_filter hp)

/-- A first match for a key that survives a filter is still the first match
after the filter. -/
theorem find_key_filter_of_find_key (l : List (String × CacheEntry))
    (q : String × CacheEntry → Bool) (k : String) (p : String × CacheEntry)
    (hf : l.find? (fun p => p.1 == k) = some p) (hq : q p = true) :
    (l.filter q).find? (fun p => p.1 == k) = some p := by
  induction l with
  | nil => cases hf
  | cons a t ih =>
    by_cases ha : (a.1 == k) = true
    · rw [List.find?_cons_of_pos (p := fun x : String × CacheEntry => x.1 == k) _ ha] at hf
      injection hf with hf
      subst hf
      rw [List.filter_cons_of_pos hq]
      exact List.find?_cons_of_pos _ ha
    · rw [List.find?_cons_of_neg (p := fun x : String × CacheEntry => x.1 == k) _ ha] at hf
      by_cases hqa : q a = true
      · rw [List.filter_cons_of_pos hqa,
          List.find?_cons_of_neg (p := fun x : String × CacheEntry => x.1 == k) _ ha]
        exact ih hf
      · rw [List.filter_cons_of_neg (by simpa using hqa)]
        exact ih hf

/-- With pairwise-distinct keys, a key appears among the first components
of a filtered association list exactly when its unique entry passes the
filter. -/
theorem mem_map_fst_filter_iff (l : List (String × CacheEntry))
    (q : String × CacheEntry → Bool) (k : String)
    (hnd : (l.map Prod.fst).Nodup) :
    k ∈ (l.filter q).map Prod.fst ↔
      ∃ p, l.find? (fun p => p.1 == k) = some p ∧ q p = true := by
  induction l with
  | nil => simp
  | cons a t ih =>
    rw [List.map_cons, List.nodup_cons] at hnd
    by_cases ha : (a.1 == k) = true
    · have hak : a.1 = k := by simpa using ha
      subst hak
      rw [List.find?_cons_of_pos (p := fun x : String × CacheEntry => x.1 == a.1) _ ha]
      by_cases hqa : q a = true
      · rw [List.filter_cons_of_pos hqa, List.map_cons]
        constructor
        · intro _
          exact ⟨a, rfl, hqa⟩
        · intro _
          exact List.mem_cons_self _ _
      · rw [List.filter_cons_of_neg (by simpa using hqa)]
        constructor
        · intro hmem
          exact absurd (mem_map_fst_of_mem_map_fst_filter q t a.1 hmem)
            hnd.1
        · rintro ⟨p, hp, hqp⟩
          injection hp with hp
          subst hp
          exact absurd hqp hqa
    · rw [List.find?_cons_of_neg (p := fun x : String × CacheEntry => x.1 == k) _ ha]
      have hih := ih hnd.2
      by_cases hqa : q a = true
      · rw [List.filter_cons_of_pos hqa, List.map_cons, List.mem_cons]
        constructor
        · rintro (h1 | h2)
          · exact absurd (by simpa using h1.symm) ha
          · exact hih.mp h2
        · intro h1
          exact Or.inr (hih.mpr h1)
      · rw [List.filter_cons_of_neg (by simpa using hqa)]
        exact hih

/-- C8: sweepOnce synchronously removes every entry expired at call time and
reports exactly the removed keys; live entries remain with their stored
data. The store invariant (at most one entry per key) is assumed. -/
theorem sweepOnce_removes_expired (s : CachingService) (now : Nat)
    (hwf : s.wf) :
    (∀ k e, ((s.sweepOnce now).2).lookup k = some e → now < e.expiresAt) ∧
    (∀ k e, s.lookup k = some e → now < e.expiresAt →
      ((s.sweepOnce now).2).lookup k = some e) ∧
    (∀ k, k ∈ (s.sweepOnce now).1 ↔
      ∃ e, s.lookup k = some e ∧ e.expiresAt ≤ now) := by
  refine ⟨?_, ?_, ?_⟩
  · intro k e hl
    simp only [CachingService.sweepOnce, CachingService.lookup] at hl
    cases hfind : List.find? (fun p => p.1 == k)
        (s.entries.filter fun p => !(p.2.expiresAt ≤ now)) with
    | none => rw [hfind] at hl; cases hl
    | some p =>
      rw [hfind] at hl
      injection hl with hl
      have hmem := List.mem_of_find?_eq_some hfind
      have hq := (List.mem_filter.mp hmem).2
      rw [hl] at hq
      simpa using hq
  · intro k e hl hlive
    simp only [CachingService.lookup] at hl
    cases hfind : s.entries.find? (fun p => p.1 == k) with
    | none => rw [hfind] at hl; cases hl
    | some p =>
      rw [hfind] at hl
      injection hl with hl
      simp only [CachingService.sweepOnce, CachingService.lookup]
      rw [find_key_filter_of_find_key s.entries _ k p hfind
        (by rw [hl]; simpa using Nat.not_le.mpr hlive)]
      simp [hl]
  · intro k
    simp only [CachingService.sweepOnce]
    rw [mem_map_fst_filter_iff s.entries _ k hwf]
    constructor
    · rintro ⟨p, hp, hq⟩
      refine ⟨p.2, ?_, by simpa using hq⟩
      simp only [CachingService.lookup, hp, Option.map_some']
    · rintro ⟨e, he, hexp⟩
      simp only [CachingService.lookup] at he
      cases hfind : s.entries.find? (fun p => p.1 == k) with
      | none => rw [hfind] at he; cases he
      | some p =>
        rw [hfind] at he
        injection he with he
        exact ⟨p, rfl, by rw [he]; simpa using hexp⟩

/-- C8 witness at a concrete store: one expired and one live entry. -/
theorem sweepOnce_removes_expired_witness :
    ((⟨10, [("a", ⟨JSValue.vStr "1", 0, 10⟩),
           ("b", ⟨JSValue.vStr "2", 5, 15⟩)]⟩ : CachingService).entries.map
        Prod.fst).Nodup ∧
    ("a" ∈ ((⟨10, [("a", ⟨JSValue.vStr "1", 0, 10⟩),
           ("b", ⟨JSValue.vStr "2", 5, 15⟩)]⟩ : CachingService).sweepOnce
        10).1 ↔ ∃ e,
      (⟨10, [("a", ⟨JSValue.vStr "1", 0, 10⟩),
           ("b", ⟨JSValue.vStr "2", 5, 15⟩)]⟩ : CachingService).lookup "a" =
        some e ∧ e.expiresAt ≤ 10) :=
  ⟨by decide,
   (sweepOnce_removes_expired
     ⟨10, [("a", ⟨JSValue.vStr "1", 0, 10⟩),
           ("b", ⟨JSValue.vStr "2", 5, 15⟩)]⟩ 10
     (by unfold CachingService.wf; decide)).2.2 "a"⟩

/-! Claim theorems for the interceptor. -/

/-- Distinct language tags give distinct derived keys for the same path. -/
theorem append_tag_path_injective (l1 l2 p : String) (h : l1 ≠ l2) :
    l1 ++ ":" ++ p ≠ l2 ++ ":" ++ p := by
  intro he
  apply h
  have hd := congrArg String.data he
  simp only [String.data_append] at hd
  exact String.ext (List.append_cancel_right (List.append_cancel_right hd))

/-- C3: an invocation whose path is in the fixed exclusion set — exactly
the two explorer paths — passes straight through: the result of `next` is
returned unmodified, the store is untouched, and no cache get or set is
performed, regardless of prior cache contents. -/
theorem excluded_path_bypass (store : CachingService) (req : HttpRequest)
    (next : Except JSValue JSValue) (now : Nat)
    (hex : req.path ∈ EXCLUDED_PATHS) :
    EXCLUDED_PATHS = ["/explorer/", "/explorer/openapi.json"] ∧
    intercept store ⟨some req⟩ next now =
      { result := next, store := store, nextInvoked := true,
        cacheRead := false, cacheWritten := false } :=
  ⟨rfl, by simp [intercept, hex]⟩

/-- C3 witness: a cached entry for the explorer path is ignored. -/
theorem excluded_path_bypass_witness :
    "/explorer/" ∈ EXCLUDED_PATHS ∧
    intercept ⟨10000, [("en:/explorer/", ⟨JSValue.vStr "cached", 0, 10000⟩)]⟩
        ⟨some ⟨"/explorer/", none⟩⟩ (Except.ok (JSValue.vStr "fresh")) 5 =
      { result := Except.ok (JSValue.vStr "fresh"),
        store :=
          ⟨10000, [("en:/explorer/", ⟨JSValue.vStr "cached", 0, 10000⟩)]⟩,
        nextInvoked := true, cacheRead := false, cacheWritten := false } :=
  ⟨by decide,
   (excluded_path_bypass
     ⟨10000, [("en:/explorer/", ⟨JSValue.vStr "cached", 0, 10000⟩)]⟩
     ⟨"/explorer/", none⟩ (Except.ok (JSValue.vStr "fresh")) 5
     (by decide)).2⟩

/-- C10: when no HTTP request is bound to the invocation context, the
interceptor completes without error by invoking `next` and returning its
result, and the cache store is neither read nor written. -/
theorem no_request_passthrough (store : CachingService)
    (next : Except JSValue JSValue) (now : Nat) :
    intercept store ⟨none⟩ next now =
      { result := next, store := store, nextInvoked := true,
        cacheRead := false, cacheWritten := false } := rfl

/-- C4: for a non-excluded invocation the cache key used for lookup and
store is exactly languageTag ++ ":" ++ requestPath: on a miss the handler
result is stored under that key and every other key is untouched; and for
a fixed path, distinct language tags always give distinct keys, so
invocations differing only in language never share an entry. -/
theorem cache_key_is_lang_colon_path (store : CachingService)
    (req : HttpRequest) (r : JSValue) (now : Nat)
    (hex : req.path ∉ EXCLUDED_PATHS)
    (hmiss : store.lookup (langOf req ++ ":" ++ req.path) = none) :
    (intercept store ⟨some req⟩ (Except.ok r) now).store.lookup
        (langOf req ++ ":" ++ req.path) = some ⟨r, now, now + store.ttl⟩ ∧
    (∀ k, k ≠ langOf req ++ ":" ++ req.path →
      (intercept store ⟨some req⟩ (Except.ok r) now).store.lookup k =
        store.lookup k) ∧
    (∀ l1 l2 p2 : String, l1 ≠ l2 → l1 ++ ":" ++ p2 ≠ l2 ++ ":" ++ p2) := by
  have hget := get_absent store (cachingKey req) now hmiss
  have hmiss2 : optTruthy (store.get (cachingKey req) now).1 = false := by
    rw [hget]
    rfl
  have hi := intercept_miss_ok store req r now hex hmiss2
  refine ⟨?_, ?_, fun l1 l2 p2 h => append_tag_path_injective l1 l2 p2 h⟩
  · rw [hi]
    simp only [hget]
    exact lookup_set_self store (cachingKey req) r now
  · intro k hk
    rw [hi]
    simp only [hget]
    exact lookup_set_ne store (cachingKey req) r now k hk

/-- C4 witness: the `en` default and path produce key
`en:/greet/loopback`. -/
theorem cache_key_is_lang_colon_path_witness :
    "/greet/loopback" ∉ EXCLUDED_PATHS ∧
    (⟨10000, []⟩ : CachingService).lookup
      (langOf ⟨"/greet/loopback", none⟩ ++ ":" ++ "/greet/loopback")
      = none ∧
    (intercept ⟨10000, []⟩ ⟨some ⟨"/greet/loopback", none⟩⟩
        (Except.ok (JSValue.vStr "hi")) 0).store.lookup
      (langOf ⟨"/greet/loopback", none⟩ ++ ":" ++ "/greet/loopback") =
      some ⟨JSValue.vStr "hi", 0, 0 + (10000 : Nat)⟩ :=
  ⟨by decide, by decide,
   (cache_key_is_lang_colon_path ⟨10000, []⟩ ⟨"/greet/loopback", none⟩
     (JSValue.vStr "hi") 0 (by decide) (by decide)).1⟩

/-- A truthy lookup makes the interceptor skip the handler. -/
theorem intercept_skips_next_of_truthy (store : CachingService)
    (req : HttpRequest) (next : Except JSValue JSValue) (now : Nat)
    (hex : req.path ∉ EXCLUDED_PATHS)
    (hm : optTruthy (store.get (cachingKey req) now).1 = true) :
    (intercept store ⟨some req⟩ next now).nextInvoked = false := by
  simp [intercept, hex, hm]

/-- The lazy cleanup performed by `get` never touches other keys. -/
theorem lookup_get_ne (s : CachingService) (k k2 : String) (now : Nat)
    (h : k2 ≠ k) : (s.get k now).2.lookup k2 = s.lookup k2 := by
  unfold CachingService.get
  cases hl : s.lookup k with
  | none => rfl
  | some e =>
    by_cases hs : e.expiresAt ≤ now
    · simpa [hs] using lookup_filter_out_ne s k k2 h
    · simp [hs]

/-- C1 is refuted as stated: here the store holds a live entry (value `0`,
not yet expired) under the derived key, yet the interceptor invokes the
downstream handler and returns the handler's value, not the cached one. -/
theorem live_falsy_entry_refutes_hit_claim :
    (⟨10000, [("en:/greet/a", ⟨JSValue.vNum 0, 0, 10000⟩)]⟩ :
        CachingService).lookup "en:/greet/a" =
      some ⟨JSValue.vNum 0, 0, 10000⟩ ∧
    (5 : Nat) < 10000 ∧
    cachingKey ⟨"/greet/a", none⟩ = "en:/greet/a" ∧
    (intercept ⟨10000, [("en:/greet/a", ⟨JSValue.vNum 0, 0, 10000⟩)]⟩
        ⟨some ⟨"/greet/a", none⟩⟩ (Except.ok (JSValue.vStr "fresh"))
        5).nextInvoked = true ∧
    (intercept ⟨10000, [("en:/greet/a", ⟨JSValue.vNum 0, 0, 10000⟩)]⟩
        ⟨some ⟨"/greet/a", none⟩⟩ (Except.ok (JSValue.vStr "fresh"))
        5).result ≠ Except.ok (JSValue.vNum 0) := by decide

/-- C1 (amended): for a non-excluded invocation, if the store holds a live
entry with a truthy value under the derived key, the interceptor returns
that cached value and the handler is not invoked, so handler side effects
such as a fresh timestamp are skipped; if there is no live entry, or the
live entry's value is falsy, the interceptor invokes the handler and, on
success, stores the result under the derived key and returns it. -/
theorem cache_aside_hit_miss (store : CachingService) (req : HttpRequest)
    (next : Except JSValue JSValue) (now : Nat)
    (hex : req.path ∉ EXCLUDED_PATHS) :
    (∀ e, store.lookup (cachingKey req) = some e → now < e.expiresAt →
      e.value.truthy = true →
      intercept store ⟨some req⟩ next now =
        { result := Except.ok e.value, store := store, nextInvoked := false,
          cacheRead := true, cacheWritten := false }) ∧
    (∀ r, next = Except.ok r →
      (∀ e, store.lookup (cachingKey req) = some e →
        e.expiresAt ≤ now ∨ e.value.truthy = false) →
      (intercept store ⟨some req⟩ next now).result = Except.ok r ∧
      (intercept store ⟨some req⟩ next now).nextInvoked = true ∧
      (intercept store ⟨some req⟩ next now).store.lookup (cachingKey req) =
        some ⟨r, now, now + store.ttl⟩) := by
  constructor
  · intro e hl hlive ht
    exact intercept_hit store req next now e hex hl hlive ht
  · rintro r rfl hmiss
    have hm := optTruthy_get_false store (cachingKey req) now hmiss
    rw [intercept_miss_ok store req r now hex hm]
    refine ⟨rfl, rfl, ?_⟩
    have hs := lookup_set_self ((store.get (cachingKey req) now).2)
      (cachingKey req) r now
    rw [ttl_get] at hs
    exact hs

/-- C1 witness: a live truthy entry (a payload with timestamp T1) is
returned unchanged and the handler producing T2 is not invoked. -/
theorem cache_aside_hit_miss_witness :
    "/greet/loopback" ∉ EXCLUDED_PATHS ∧
    intercept ⟨10000, [("en:/greet/loopback",
        ⟨JSValue.vObj [("timestamp", "T1"),
          ("greeting", "Hello, loopback!")], 0, 10000⟩)]⟩
      ⟨some ⟨"/greet/loopback", none⟩⟩
      (Except.ok (JSValue.vObj [("timestamp", "T2"),
        ("greeting", "Hello, loopback!")])) 5000 =
      { result := Except.ok (JSValue.vObj [("timestamp", "T1"),
          ("greeting", "Hello, loopback!")]),
        store := ⟨10000, [("en:/greet/loopback",
          ⟨JSValue.vObj [("timestamp", "T1"),
            ("greeting", "Hello, loopback!")], 0, 10000⟩)]⟩,
        nextInvoked := false, cacheRead := true, cacheWritten := false } :=
  ⟨by decide,
   (cache_aside_hit_miss
     ⟨10000, [("en:/greet/loopback",
       ⟨JSValue.vObj [("timestamp", "T1"),
         ("greeting", "Hello, loopback!")], 0, 10000⟩)]⟩
     ⟨"/greet/loopback", none⟩
     (Except.ok (JSValue.vObj [("timestamp", "T2"),
       ("greeting", "Hello, loopback!")])) 5000 (by decide)).1
     ⟨JSValue.vObj [("timestamp", "T1"),
       ("greeting", "Hello, loopback!")], 0, 10000⟩
     (by decide) (by decide) (by decide)⟩

/-- C9: a live, unexpired entry whose stored value is falsy is treated as a
miss — the downstream handler is invoked anyway — because the hit test is
a truthiness check on the value returned by the lookup, not a presence
check. -/
theorem falsy_live_entry_treated_as_miss (store : CachingService)
    (req : HttpRequest) (next : Except JSValue JSValue) (now : Nat)
    (e : CacheEntry) (hex : req.path ∉ EXCLUDED_PATHS)
    (hl : store.lookup (cachingKey req) = some e)
    (hlive : now < e.expiresAt) (hfalsy : e.value.truthy = false) :
    (intercept store ⟨some req⟩ next now).nextInvoked = true := by
  have hget := get_live store (cachingKey req) now e hl hlive
  have hm : optTruthy (store.get (cachingKey req) now).1 = false := by
    rw [hget]
    simpa [optTruthy] using hfalsy
  cases next with
  | error err => rw [intercept_miss_error store req err now hex hm]
  | ok r => rw [intercept_miss_ok store req r now hex hm]

/-- C9 witness: a live empty-string value is re-computed. -/
theorem falsy_live_entry_treated_as_miss_witness :
    "/greet/b" ∉ EXCLUDED_PATHS ∧
    (⟨10000, [("en:/greet/b", ⟨JSValue.vStr "", 0, 10000⟩)]⟩ :
        CachingService).lookup (cachingKey ⟨"/greet/b", none⟩) =
      some ⟨JSValue.vStr "", 0, 10000⟩ ∧
    (intercept ⟨10000, [("en:/greet/b", ⟨JSValue.vStr "", 0, 10000⟩)]⟩
        ⟨some ⟨"/greet/b", none⟩⟩ (Except.ok (JSValue.vStr "x"))
        1).nextInvoked = true :=
  ⟨by decide, by decide,
   falsy_live_entry_treated_as_miss
     ⟨10000, [("en:/greet/b", ⟨JSValue.vStr "", 0, 10000⟩)]⟩
     ⟨"/greet/b", none⟩ (Except.ok (JSValue.vStr "x")) 1
     ⟨JSValue.vStr "", 0, 10000⟩ (by decide) (by decide) (by decide)
     (by decide)⟩

/-- C6 is refuted as stated: with a stale entry under the derived key, a
failing handler propagates its error and nothing is stored, yet the store
is not exactly what it was before the invocation — the lookup's mandatory
lazy cleanup removed the stale entry. -/
theorem handler_failure_store_not_identical :
    (intercept ⟨10000, [("en:/greet/c", ⟨JSValue.vStr "old", 0, 10000⟩)]⟩
        ⟨some ⟨"/greet/c", none⟩⟩ (Except.error (JSValue.vStr "boom"))
        20000).result = Except.error (JSValue.vStr "boom") ∧
    (intercept ⟨10000, [("en:/greet/c", ⟨JSValue.vStr "old", 0, 10000⟩)]⟩
        ⟨some ⟨"/greet/c", none⟩⟩ (Except.error (JSValue.vStr "boom"))
        20000).cacheWritten = false ∧
    (intercept ⟨10000, [("en:/greet/c", ⟨JSValue.vStr "old", 0, 10000⟩)]⟩
        ⟨some ⟨"/greet/c", none⟩⟩ (Except.error (JSValue.vStr "boom"))
        20000).store ≠
      ⟨10000, [("en:/greet/c", ⟨JSValue.vStr "old", 0, 10000⟩)]⟩ := by
  decide

/-- C6 (amended): for a non-excluded invocation in which the downstream
handler is invoked and fails, the failure propagates unchanged to the
caller, there is no retry (the single outcome of `next` is the result),
and no cache set is performed: the store is exactly the lookup's
lazy-cleanup result, identical to the prior state at every key other than
the derived key. -/
theorem handler_failure_propagates (store : CachingService)
    (req : HttpRequest) (err : JSValue) (now : Nat)
    (hex : req.path ∉ EXCLUDED_PATHS)
    (hinv : (intercept store ⟨some req⟩ (Except.error err)
      now).nextInvoked = true) :
    (intercept store ⟨some req⟩ (Except.error err) now).result =
      Except.error err ∧
    (intercept store ⟨some req⟩ (Except.error err) now).cacheWritten =
      false ∧
    (intercept store ⟨some req⟩ (Except.error err) now).store =
      (store.get (cachingKey req) now).2 ∧
    (∀ k, k ≠ cachingKey req →
      (intercept store ⟨some req⟩ (Except.error err) now).store.lookup k =
        store.lookup k) := by
  by_cases hm : optTruthy (store.get (cachingKey req) now).1 = true
  · exact absurd
      (intercept_skips_next_of_truthy store req (Except.error err) now hex
        hm ▸ hinv) (by simp)
  · have hm2 : optTruthy (store.get (cachingKey req) now).1 = false := by
      simpa using hm
    rw [intercept_miss_error store req err now hex hm2]
    exact ⟨rfl, rfl, rfl,
      fun k hk => lookup_get_ne store (cachingKey req) k now hk⟩

/-- C6 witness: on an empty store the failure propagates and the store
stays empty. -/
theorem handler_failure_propagates_witness :
    "/greet/d" ∉ EXCLUDED_PATHS ∧
    (intercept ⟨10000, []⟩ ⟨some ⟨"/greet/d", none⟩⟩
      (Except.error (JSValue.vStr "boom")) 0).nextInvoked = true ∧
    (intercept ⟨10000, []⟩ ⟨some ⟨"/greet/d", none⟩⟩
      (Except.error (JSValue.vStr "boom")) 0).result =
      Except.error (JSValue.vStr "boom") :=
  ⟨by decide, by decide,
   (handler_failure_propagates ⟨10000, []⟩ ⟨"/greet/d", none⟩
     (JSValue.vStr "boom") 0 (by decide) (by decide)).1⟩

/-- C5 is refuted as stated: a present but unrecognized language value
(here `xx`, not in the supported set) is used verbatim as the key's
language tag; the tag is not `en`. -/
theorem unrecognized_language_used_verbatim :
    (⟨"/greet/world", some "xx"⟩ : HttpRequest).acceptLanguage =
      some "xx" ∧
    "xx" ∉ ["en", "zh", "fr"] ∧
    cachingKey ⟨"/greet/world", some "xx"⟩ = "xx:/greet/world" ∧
    langOf ⟨"/greet/world", some "xx"⟩ ≠ "en" := by decide

/-- C5 (amended): the language tag of the derived cache key is the raw
accept-language header value whenever it is present and non-empty — with
no validation against a supported-language set — and equals `en` exactly
when the header is absent or empty. -/
theorem language_tag_default (req : HttpRequest) :
    (req.acceptLanguage = none →
      cachingKey req = "en" ++ ":" ++ req.path) ∧
    (req.acceptLanguage = some "" →
      cachingKey req = "en" ++ ":" ++ req.path) ∧
    (∀ s, req.acceptLanguage = some s → s ≠ "" →
      cachingKey req = s ++ ":" ++ req.path) := by
  refine ⟨fun h => ?_, fun h => ?_, fun s h hs => ?_⟩
  · simp [cachingKey, langOf, h]
  · simp [cachingKey, langOf, h]
  · simp [cachingKey, langOf, h, hs]

/-- C5 witness: the header value `zh` becomes the key's tag. -/
theorem language_tag_default_witness :
    (⟨"/greet/loopback", some "zh"⟩ : HttpRequest).acceptLanguage =
      some "zh" ∧
    cachingKey ⟨"/greet/loopback", some "zh"⟩ =
      "zh" ++ ":" ++ "/greet/loopback" :=
  ⟨rfl,
   (language_tag_default ⟨"/greet/loopback", some "zh"⟩).2.2 "zh" rfl
     (by decide)⟩
